import Mathlib

/-!
# Verification of the AutoDifferentiation expression engines

This development embeds the two C++ expression engines of the repository
(`SingleVarDiff.h` and `MultiVarDiff.h`) as Lean inductive types with
executable builders, evaluators and differentiators, together with an
executable model of IEEE-754 binary32 arithmetic (sign, mantissa, exponent,
round to nearest, ties to even) used by both engines. All operations compute
over machine naturals and integers so that concrete claims can be settled by
evaluation; rationals appear only in the correctness lemmas. Theorems at the
end settle the frozen claims about the engines.
-/

set_option maxRecDepth 4000

/-! ## The binary32 value model

A float is NaN, a signed infinity, a signed zero, or a finite nonzero number
`(-1)^sign * m * 2^e`. Values produced by rounding are canonical: either a
normal number with `2^23 <= m < 2^24` and `-149 <= e <= 104`, or a subnormal
with `0 < m < 2^23` and `e = -149`. -/

inductive F32 where
  | nan : F32
  | inf : Bool → F32
  | zero : Bool → F32
  | num : Bool → ℕ → ℤ → F32
deriving DecidableEq, Repr

/-- Fuel-driven base-2 integer logarithm: `ilog2F fuel n` is the floor of
log2 of `n` whenever `1 <= n <= fuel`. -/
def ilog2F : ℕ → ℕ → ℕ
  | 0, _ => 0
  | fuel + 1, n => if n ≤ 1 then 0 else ilog2F fuel (n / 2) + 1

/-- Floor of the base-2 logarithm of a positive natural number below
`2 ^ 400` (every quantity derived from binary32 values stays far below). -/
def ilog2 (n : ℕ) : ℕ := ilog2F 400 n

/-- Decide whether `a / b < 2 ^ t` for naturals `a`, `b` (by cross
multiplication, so that everything stays in the naturals). -/
def ltPow2 (a b : ℕ) (t : ℤ) : Bool :=
  if 0 ≤ t then decide (a < b * 2 ^ t.toNat) else decide (a * 2 ^ (-t).toNat < b)

/-- Floor of the base-2 logarithm of `a / b` for positive naturals. -/
def flog2 (a b : ℕ) : ℤ :=
  if ltPow2 a b ((ilog2 a : ℤ) - (ilog2 b : ℤ))
  then (ilog2 a : ℤ) - (ilog2 b : ℤ) - 1
  else (ilog2 a : ℤ) - (ilog2 b : ℤ)

/-- Round the fraction `A / B` to the nearest natural, ties to even. -/
def roundNat (A B : ℕ) : ℕ :=
  if B < 2 * (A % B) then A / B + 1
  else if 2 * (A % B) < B then A / B
  else if A / B % 2 = 0 then A / B else A / B + 1

/-- Numerator of `(a / b) / 2 ^ e` put over a natural denominator. -/
def numAt (a : ℕ) (e : ℤ) : ℕ := if 0 ≤ e then a else a * 2 ^ (-e).toNat

/-- Denominator of `(a / b) / 2 ^ e` put over a natural denominator. -/
def denAt (b : ℕ) (e : ℤ) : ℕ := if 0 ≤ e then b * 2 ^ e.toNat else b

/-- Assemble a rounded binary32 from a sign, an exponent and a rounded
mantissa, handling mantissa overflow, exponent overflow and underflow. -/
def finishRound (s : Bool) (e : ℤ) (m : ℕ) : F32 :=
  if m = 0 then .zero s
  else if m = 2 ^ 24 then (if 104 < e + 1 then .inf s else .num s (2 ^ 23) (e + 1))
  else if 104 < e then .inf s
  else .num s m e

/-- Round the positive rational `a / b` (`a, b >= 1`) to the nearest
binary32 with the given sign, round to nearest, ties to even. -/
def roundFrac (s : Bool) (a b : ℕ) : F32 :=
  finishRound s (max (flog2 a b - 23) (-149))
    (roundNat (numAt a (max (flog2 a b - 23) (-149)))
              (denAt b (max (flog2 a b - 23) (-149))))

/-- Round the value `A * 2 ^ e` (`A >= 1`) to the nearest binary32. -/
def roundInt (s : Bool) (A : ℕ) (e : ℤ) : F32 :=
  if 0 ≤ e then roundFrac s (A * 2 ^ e.toNat) 1 else roundFrac s A (2 ^ (-e).toNat)

/-- Signed mantissa of a finite binary32 (0 for NaN, infinities and zeros). -/
def F32.mantZ : F32 → ℤ
  | .num s m _ => if s then -(m : ℤ) else (m : ℤ)
  | _ => 0

/-- Exponent of a finite binary32 (0 for the other shapes). -/
def F32.expZ : F32 → ℤ
  | .num _ _ e => e
  | _ => 0

/-- Sign bit of a binary32. -/
def F32.signB : F32 → Bool
  | .nan => false
  | .inf s => s
  | .zero s => s
  | .num s _ _ => s

/-- The float is an infinity or NaN. -/
def F32.isInfOrNan : F32 → Bool
  | .nan => true
  | .inf _ => true
  | _ => false

/-- The float is a (signed) zero. -/
def F32.isZero : F32 → Bool
  | .zero _ => true
  | _ => false

/-- Canonical-form well-formedness of a binary32 value. -/
def wfF32 : F32 → Bool
  | .num _ m e =>
      (decide (2 ^ 23 ≤ m) && decide (m < 2 ^ 24) &&
        decide (-149 ≤ e) && decide (e ≤ 104)) ||
      (decide (0 < m) && decide (m < 2 ^ 23) && decide (e = -149))
  | _ => true

/-- IEEE negation: flips the sign bit, keeps NaN. -/
def F32.neg : F32 → F32
  | .nan => .nan
  | .inf s => .inf (!s)
  | .zero s => .zero (!s)
  | .num s m e => .num (!s) m e

/-- IEEE binary32 addition, round to nearest, ties to even. An exact zero
sum of finite operands is -0 only when both addends carry sign -, following
the round-to-nearest rule of IEEE-754. -/
def F32.add : F32 → F32 → F32
  | .nan, _ => .nan
  | _, .nan => .nan
  | .inf s, .inf t => if s = t then .inf s else .nan
  | .inf s, .zero _ => .inf s
  | .inf s, .num _ _ _ => .inf s
  | .zero _, .inf t => .inf t
  | .num _ _ _, .inf t => .inf t
  | a, b =>
      if a.mantZ * ((2 ^ (a.expZ - min a.expZ b.expZ).toNat : ℕ) : ℤ)
         + b.mantZ * ((2 ^ (b.expZ - min a.expZ b.expZ).toNat : ℕ) : ℤ) = 0
      then .zero (a.signB && b.signB)
      else
        roundInt
          (decide (a.mantZ * ((2 ^ (a.expZ - min a.expZ b.expZ).toNat : ℕ) : ℤ)
            + b.mantZ * ((2 ^ (b.expZ - min a.expZ b.expZ).toNat : ℕ) : ℤ) < 0))
          (a.mantZ * ((2 ^ (a.expZ - min a.expZ b.expZ).toNat : ℕ) : ℤ)
            + b.mantZ * ((2 ^ (b.expZ - min a.expZ b.expZ).toNat : ℕ) : ℤ)).natAbs
          (min a.expZ b.expZ)

/-- IEEE binary32 subtraction, defined (as IEEE-754 allows) as addition of
the negated second operand. -/
def F32.sub (a b : F32) : F32 := F32.add a (F32.neg b)

/-- IEEE binary32 multiplication, round to nearest, ties to even. -/
def F32.mul : F32 → F32 → F32
  | .nan, _ => .nan
  | _, .nan => .nan
  | .inf s, .inf t => .inf (xor s t)
  | .inf _, .zero _ => .nan
  | .inf s, .num t m _ => if m = 0 then .nan else .inf (xor s t)
  | .zero _, .inf _ => .nan
  | .num s m _, .inf t => if m = 0 then .nan else .inf (xor s t)
  | a, b =>
      if a.mantZ = 0 ∨ b.mantZ = 0 then .zero (xor a.signB b.signB)
      else roundInt (xor a.signB b.signB) (a.mantZ * b.mantZ).natAbs
             (a.expZ + b.expZ)

/-- IEEE binary32 division, round to nearest, ties to even. Division of a
nonzero finite number by zero gives a signed infinity, 0/0 gives NaN. -/
def F32.div : F32 → F32 → F32
  | .nan, _ => .nan
  | _, .nan => .nan
  | .inf _, .inf _ => .nan
  | .inf s, .zero t => .inf (xor s t)
  | .inf s, .num t _ _ => .inf (xor s t)
  | .zero s, .inf t => .zero (xor s t)
  | .num s _ _, .inf t => .zero (xor s t)
  | a, b =>
      if b.mantZ = 0 then
        (if a.mantZ = 0 then .nan else .inf (xor a.signB b.signB))
      else if a.mantZ = 0 then .zero (xor a.signB b.signB)
      else if 0 ≤ a.expZ - b.expZ then
        roundFrac (xor a.signB b.signB)
          (a.mantZ.natAbs * 2 ^ (a.expZ - b.expZ).toNat) b.mantZ.natAbs
      else
        roundFrac (xor a.signB b.signB)
          a.mantZ.natAbs (b.mantZ.natAbs * 2 ^ (b.expZ - a.expZ).toNat)

/-- The canonical binary32 representation of 1. -/
def f32one : F32 := .num false (2 ^ 23) (-23)

/-- The float +0. -/
def f32pz : F32 := .zero false

/-- The binary32 nearest to a natural number (models a C++ float literal). -/
def f32 (n : ℕ) : F32 := if n = 0 then .zero false else roundFrac false n 1

/-- Equality of binary32 values up to the sign of zero (bitwise equality
except that +0 and -0 are identified). -/
def eqZ (a b : F32) : Bool := decide (a = b) || (a.isZero && b.isZero)

/-- Proof-layer power of two over the rationals. -/
def pow2 (e : ℤ) : ℚ := (2 : ℚ) ^ e

/-- Exact rational value of a finite binary32 (0 for NaN and infinities). -/
def F32.toRat (x : F32) : ℚ := (x.mantZ : ℚ) * pow2 x.expZ

/-! ## The single-variable engine (`SingleVarDiff.h`)

Expressions of one implicit variable. The Constant kind carries the two
type-level tags `Zero` and `One` of the source next to the general float
Constant, so the identity-elimination rules can fire on the literal tags
exactly as the `std::is_same_v` checks of the source do. -/

inductive SExpr where
  | zeroE : SExpr
  | oneE : SExpr
  | constE : F32 → SExpr
  | varE : SExpr
  | sum : SExpr → SExpr → SExpr
  | diff : SExpr → SExpr → SExpr
  | prod : SExpr → SExpr → SExpr
  | quot : SExpr → SExpr → SExpr
deriving DecidableEq, Repr

/-- The expression is of the Constant kind (`exprType == ExprType::Constant`
in the source, which holds for the Zero and One tags as well). -/
def isConstKind : SExpr → Bool
  | .zeroE => true
  | .oneE => true
  | .constE _ => true
  | _ => false

/-- The float value carried by a Constant-kind expression (`lhs.value` in
the source; the Zero and One tags carry the static values 0 and 1). -/
def cval : SExpr → F32
  | .oneE => f32one
  | .constE v => v
  | _ => .zero false

/-- Builder for sums, mirroring `singleVarDiff::operator+`: eliminate a
literal Zero on either side, fold two Constant-kind operands, otherwise
build a Sum node. -/
def addE (l r : SExpr) : SExpr :=
  if l = .zeroE then r
  else if r = .zeroE then l
  else if isConstKind l && isConstKind r then .constE (F32.add (cval l) (cval r))
  else .sum l r

/-- Builder for differences, mirroring `singleVarDiff::operator-`: eliminate
a literal Zero on the right only, fold two Constant-kind operands, otherwise
build a Difference node. -/
def subE (l r : SExpr) : SExpr :=
  if r = .zeroE then l
  else if isConstKind l && isConstKind r then .constE (F32.sub (cval l) (cval r))
  else .diff l r

/-- Builder for products, mirroring `singleVarDiff::operator*`: a literal
Zero operand gives the literal Zero, a literal One operand gives the other
operand, two Constant-kind operands fold, otherwise build a Product node. -/
def mulE (l r : SExpr) : SExpr :=
  if l = .zeroE ∨ r = .zeroE then .zeroE
  else if l = .oneE then r
  else if r = .oneE then l
  else if isConstKind l && isConstKind r then .constE (F32.mul (cval l) (cval r))
  else .prod l r

/-- Builder for quotients, mirroring `singleVarDiff::operator/`: a literal
Zero divisor gives the literal Zero (the rule marked `todo: fix this` in the
source), a literal Zero dividend gives the literal Zero, a literal One
divisor gives the dividend, two Constant-kind operands fold, otherwise
build a Quotient node. -/
def divE (l r : SExpr) : SExpr :=
  if r = .zeroE then .zeroE
  else if l = .zeroE then .zeroE
  else if r = .oneE then l
  else if isConstKind l && isConstKind r then .constE (F32.div (cval l) (cval r))
  else .quot l r

/-- Float overload `expr + float` of the source: promote and build. -/
def addF (l : SExpr) (c : F32) : SExpr := addE l (.constE c)

/-- Float overload `float + expr` of the source: promote and build. -/
def addFl (c : F32) (r : SExpr) : SExpr := addE (.constE c) r

/-- Float overload `expr - float` of the source, which builds
`lhs + Constant{-rhs}` (a sum with the negated float literal). -/
def subF (l : SExpr) (c : F32) : SExpr := addE l (.constE (F32.neg c))

/-- Float overload `float - expr` of the source: promote and build. -/
def subFl (c : F32) (r : SExpr) : SExpr := subE (.constE c) r

/-- Float overload `expr * float` of the source: promote and build. -/
def mulF (l : SExpr) (c : F32) : SExpr := mulE l (.constE c)

/-- Float overload `float * expr` of the source: promote and build. -/
def mulFl (c : F32) (r : SExpr) : SExpr := mulE (.constE c) r

/-- Float overload `expr / float` of the source: promote and build. -/
def divF (l : SExpr) (c : F32) : SExpr := divE l (.constE c)

/-- Float overload `float / expr` of the source: promote and build. -/
def divFl (c : F32) (r : SExpr) : SExpr := divE (.constE c) r

/-- Evaluation of a single-variable expression at the implicit variable
value `x`, mirroring the `operator()` overloads of the source. -/
def evalS : SExpr → F32 → F32
  | .zeroE, _ => .zero false
  | .oneE, _ => f32one
  | .constE v, _ => v
  | .varE, x => x
  | .sum l r, x => F32.add (evalS l x) (evalS r x)
  | .diff l r, x => F32.sub (evalS l x) (evalS r x)
  | .prod l r, x => F32.mul (evalS l x) (evalS r x)
  | .quot l r, x => F32.div (evalS l x) (evalS r x)

/-- Differentiation of a single-variable expression, mirroring the `dx()`
methods of the source: results are recombined through the builders. -/
def dxS : SExpr → SExpr
  | .zeroE => .zeroE
  | .oneE => .zeroE
  | .constE _ => .zeroE
  | .varE => .oneE
  | .sum l r => addE (dxS l) (dxS r)
  | .diff l r => subE (dxS l) (dxS r)
  | .prod l r => addE (mulE (dxS l) r) (mulE l (dxS r))
  | .quot l r => divE (subE (mulE (dxS l) r) (mulE l (dxS r))) (mulE r r)

/-! ## The multi-variable engine (`MultiVarDiff.h`)

Variables carry an identity token (the source compares the address
`initAddress` captured when the original Variable was created; a copy keeps
the token). Only constant folding is performed by the builders; there are
no identity eliminations. The float overloads build composite nodes
directly. -/

inductive MExpr where
  | constM : F32 → MExpr
  | mvar : ℕ → MExpr
  | sumM : MExpr → MExpr → MExpr
  | diffM : MExpr → MExpr → MExpr
  | prodM : MExpr → MExpr → MExpr
  | quotM : MExpr → MExpr → MExpr
deriving DecidableEq, Repr

/-- The expression is a Constant leaf. -/
def isConstM : MExpr → Bool
  | .constM _ => true
  | _ => false

/-- A Variable handle of the multi-variable engine: the identity token
established when the original Variable was created (`initAddress`). -/
structure MVariable where
  idTok : ℕ
deriving DecidableEq, Repr

/-- A binding of a Variable identity to a float value (`EvalVariable`). -/
structure EvalVar where
  id : ℕ
  val : F32
deriving DecidableEq, Repr

/-- The assignment-style operation `variable = value` of the source: a const
member returning a fresh `EvalVariable{initAddress, value}`; the pair also
returns the Variable as it stands after the call (unchanged, the member is
const and mutates nothing). -/
def assignVar (v : MVariable) (c : F32) : EvalVar × MVariable :=
  (⟨v.idTok, c⟩, v)

/-- Builder for multi-variable sums: fold two Constants, else a Sum node. -/
def addM (l r : MExpr) : MExpr :=
  match l, r with
  | .constM a, .constM b => .constM (F32.add a b)
  | _, _ => .sumM l r

/-- Builder for multi-variable differences: fold two Constants, else a
Difference node. -/
def subM (l r : MExpr) : MExpr :=
  match l, r with
  | .constM a, .constM b => .constM (F32.sub a b)
  | _, _ => .diffM l r

/-- Builder for multi-variable products: fold two Constants, else a Product
node. -/
def mulM (l r : MExpr) : MExpr :=
  match l, r with
  | .constM a, .constM b => .constM (F32.mul a b)
  | _, _ => .prodM l r

/-- Builder for multi-variable quotients: fold two Constants, else a
Quotient node. -/
def divM (l r : MExpr) : MExpr :=
  match l, r with
  | .constM a, .constM b => .constM (F32.div a b)
  | _, _ => .quotM l r

/-- Float overload `expr + float` of the multi-variable engine: builds the
Sum node directly (no folding). -/
def addMF (l : MExpr) (c : F32) : MExpr := .sumM l (.constM c)

/-- Float overload `float + expr`: builds the Sum node directly. -/
def addMFl (c : F32) (r : MExpr) : MExpr := .sumM (.constM c) r

/-- Float overload `expr - float`: builds the Difference node directly. -/
def subMF (l : MExpr) (c : F32) : MExpr := .diffM l (.constM c)

/-- Float overload `float - expr`: builds the Difference node directly. -/
def subMFl (c : F32) (r : MExpr) : MExpr := .diffM (.constM c) r

/-- Float overload `expr * float`: builds the Product node directly. -/
def mulMF (l : MExpr) (c : F32) : MExpr := .prodM l (.constM c)

/-- Float overload `float * expr`: builds the Product node directly. -/
def mulMFl (c : F32) (r : MExpr) : MExpr := .prodM (.constM c) r

/-- Float overload `expr / float`: builds the Quotient node directly. -/
def divMF (l : MExpr) (c : F32) : MExpr := .quotM l (.constM c)

/-- Float overload `float / expr`: builds the Quotient node directly. -/
def divMFl (c : F32) (r : MExpr) : MExpr := .quotM (.constM c) r

/-- Resolution of a Variable leaf against the ordered binding list: the
recursion of the variadic `operator()` in the source takes the value of the
first binding whose identity matches and falls back to 0. -/
def lookupVar (i : ℕ) : List EvalVar → F32
  | [] => .zero false
  | ev :: rest => if ev.id = i then ev.val else lookupVar i rest

/-- Evaluation of a multi-variable expression against an ordered list of
bindings, mirroring the `operator()` methods of the source. -/
def evalM : MExpr → List EvalVar → F32
  | .constM v, _ => v
  | .mvar i, bs => lookupVar i bs
  | .sumM l r, bs => F32.add (evalM l bs) (evalM r bs)
  | .diffM l r, bs => F32.sub (evalM l bs) (evalM r bs)
  | .prodM l r, bs => F32.mul (evalM l bs) (evalM r bs)
  | .quotM l r, bs => F32.div (evalM l bs) (evalM r bs)

/-- Partial differentiation with respect to the Variable with identity
token `j`, mirroring the `dx(var)` methods of the source: a Variable leaf
compares identity tokens (`var.initAddress == initAddress`), and composite
rules recombine through the builders. -/
def dxM : MExpr → ℕ → MExpr
  | .constM _, _ => .constM (.zero false)
  | .mvar i, j => .constM (if i = j then f32one else .zero false)
  | .sumM l r, j => addM (dxM l j) (dxM r j)
  | .diffM l r, j => subM (dxM l j) (dxM r j)
  | .prodM l r, j => addM (mulM (dxM l j) r) (mulM l (dxM r j))
  | .quotM l r, j => divM (subM (mulM (dxM l j) r) (mulM l (dxM r j))) (mulM r r)

/-! ## The demonstration scenario of `main.cpp`

`Variable x; Variable y; Variable z = x;` followed by
`expression = x * z + 4 * y * y / (x + 5)`, partial derivatives with
respect to `x` and `y`, and evaluation at `x = 10, y = 200`. The float
overloads are used exactly where `main.cpp` uses plain number literals. -/

/-- The Variable `x` of `main.cpp` (fresh identity token 0). -/
def varX : MVariable := ⟨0⟩

/-- The Variable `y` of `main.cpp` (fresh identity token 1). -/
def varY : MVariable := ⟨1⟩

/-- The Variable `z = x` of `main.cpp`: a copy, sharing the token of x. -/
def varZ : MVariable := varX

/-- The expression `x * z + 4 * y * y / (x + 5)` of `main.cpp`, built with
the same operator overloads the source selects. -/
def exprMain : MExpr :=
  addM (mulM (.mvar varX.idTok) (.mvar varZ.idTok))
    (divM (mulM (mulMFl (f32 4) (.mvar varY.idTok)) (.mvar varY.idTok))
      (addMF (.mvar varX.idTok) (f32 5)))

/-- The binding list `(x = 10, y = 200)` of `main.cpp`. -/
def bindMain : List EvalVar :=
  [(assignVar varX (f32 10)).1, (assignVar varY (f32 200)).1]

/-! ## Proof layer for the rounding model -/

/-- Canonical binary32 mantissa/exponent pairs (Prop form of `wfF32`). -/
def Canon (m : ℕ) (e : ℤ) : Prop :=
  (2 ^ 23 ≤ m ∧ m < 2 ^ 24 ∧ -149 ≤ e ∧ e ≤ 104) ∨
  (0 < m ∧ m < 2 ^ 23 ∧ e = -149)

theorem wf_canon {s : Bool} {m : ℕ} {e : ℤ} :
    wfF32 (.num s m e) = true ↔ Canon m e := by
  simp [wfF32, Canon]
  tauto

theorem wf_neg (c : F32) : wfF32 (F32.neg c) = wfF32 c := by
  cases c <;> rfl

theorem eqZ_self (x : F32) : eqZ x x = true := by
  simp [eqZ]

theorem pow2_pos (e : ℤ) : 0 < pow2 e := zpow_pos (by norm_num) e

theorem pow2_add (a b : ℤ) : pow2 (a + b) = pow2 a * pow2 b :=
  zpow_add₀ (by norm_num) a b

theorem pow2_zero : pow2 0 = 1 := by
  simp [pow2]

theorem pow2_natCast (k : ℕ) : pow2 (k : ℤ) = ((2 ^ k : ℕ) : ℚ) := by
  rw [pow2, zpow_natCast]
  push_cast
  ring

theorem pow2_toNat {e : ℤ} (h : 0 ≤ e) : pow2 e = ((2 ^ e.toNat : ℕ) : ℚ) := by
  rw [← pow2_natCast, Int.toNat_of_nonneg h]

theorem pow2_toNatQ {e : ℤ} (h : 0 ≤ e) : pow2 e = (2 : ℚ) ^ e.toNat := by
  rw [pow2_toNat h]
  push_cast
  ring

theorem pow2_le_pow2 {a b : ℤ} (h : a ≤ b) : pow2 a ≤ pow2 b :=
  zpow_le_zpow_right₀ (by norm_num) h

theorem pow2_lt_pow2 {a b : ℤ} (h : a < b) : pow2 a < pow2 b :=
  zpow_lt_zpow_right₀ (by norm_num) h

theorem lt_of_pow2_lt {a b : ℤ} (h : pow2 a < pow2 b) : a < b := by
  by_contra hc
  push_neg at hc
  exact absurd (pow2_le_pow2 hc) (not_le.mpr h)

theorem pow2_mul_neg_self (e : ℤ) : pow2 e * pow2 (-e) = 1 := by
  rw [← pow2_add]
  have h : e + -e = 0 := by ring
  rw [h, pow2_zero]

theorem ilog2F_bounds :
    ∀ fuel n, 0 < n → n < 2 ^ fuel →
      2 ^ ilog2F fuel n ≤ n ∧ n < 2 ^ (ilog2F fuel n + 1) := by
  intro fuel
  induction fuel with
  | zero =>
    intro n h1 h2
    rw [pow_zero] at h2
    omega
  | succ f ih =>
    intro n h1 h2
    rw [ilog2F]
    by_cases hn : n ≤ 1
    · have hone : n = 1 := by omega
      subst hone
      simp
    · rw [if_neg hn]
      have hpos : 0 < n / 2 := by omega
      have hlt : n / 2 < 2 ^ f := by
        rw [pow_succ] at h2
        omega
      obtain ⟨ih1, ih2⟩ := ih (n / 2) hpos hlt
      constructor
      · rw [pow_succ]
        omega
      · rw [pow_succ] at ih2 ⊢
        rw [pow_succ]
        omega

theorem ilog2_bounds {n : ℕ} (h1 : 0 < n) (h2 : n < 2 ^ 400) :
    2 ^ ilog2 n ≤ n ∧ n < 2 ^ (ilog2 n + 1) :=
  ilog2F_bounds 400 n h1 h2

theorem ltPow2_iff (a b : ℕ) (t : ℤ) :
    ltPow2 a b t = true ↔ (a : ℚ) < (b : ℚ) * pow2 t := by
  rw [ltPow2]
  by_cases ht : 0 ≤ t
  · rw [if_pos ht, pow2_toNat ht]
    simp only [decide_eq_true_eq]
    rw [← Nat.cast_mul, Nat.cast_lt]
  · rw [if_neg ht]
    simp only [decide_eq_true_eq]
    have hpt : 0 ≤ -t := by omega
    have key : (a : ℚ) < (b : ℚ) * pow2 t ↔ (a : ℚ) * pow2 (-t) < (b : ℚ) := by
      constructor
      · intro h
        have h2 := mul_lt_mul_of_pos_right h (pow2_pos (-t))
        rwa [mul_assoc, pow2_mul_neg_self, mul_one] at h2
      · intro h
        have h2 := mul_lt_mul_of_pos_right h (pow2_pos t)
        rw [mul_assoc] at h2
        rw [show pow2 (-t) * pow2 t = 1 by rw [mul_comm]; exact pow2_mul_neg_self t] at h2
        rwa [mul_one] at h2
    rw [key, pow2_toNat hpt, ← Nat.cast_mul, Nat.cast_lt]

theorem flog2_unique {a b : ℕ} {L : ℤ} (ha : 0 < a) (hb : 0 < b)
    (ha4 : a < 2 ^ 400) (hb4 : b < 2 ^ 400)
    (h1 : (b : ℚ) * pow2 L ≤ (a : ℚ)) (h2 : (a : ℚ) < (b : ℚ) * pow2 (L + 1)) :
    flog2 a b = L := by
  obtain ⟨ha1, ha2⟩ := ilog2_bounds ha ha4
  obtain ⟨hb1, hb2⟩ := ilog2_bounds hb hb4
  have hbq : (0 : ℚ) < (b : ℚ) := by exact_mod_cast hb
  have qa1 : pow2 (ilog2 a : ℤ) ≤ (a : ℚ) := by
    rw [pow2_natCast]
    exact_mod_cast ha1
  have qa2 : (a : ℚ) < pow2 ((ilog2 a : ℤ) + 1) := by
    have hcast : ((ilog2 a : ℤ) + 1) = ((ilog2 a + 1 : ℕ) : ℤ) := by push_cast; ring
    rw [hcast, pow2_natCast]
    exact_mod_cast ha2
  have qb1 : pow2 (ilog2 b : ℤ) ≤ (b : ℚ) := by
    rw [pow2_natCast]
    exact_mod_cast hb1
  have qb2 : (b : ℚ) < pow2 ((ilog2 b : ℤ) + 1) := by
    have hcast : ((ilog2 b : ℤ) + 1) = ((ilog2 b + 1 : ℕ) : ℤ) := by push_cast; ring
    rw [hcast, pow2_natCast]
    exact_mod_cast hb2
  have low : (b : ℚ) * pow2 ((ilog2 a : ℤ) - ilog2 b - 1) < (a : ℚ) := by
    calc (b : ℚ) * pow2 ((ilog2 a : ℤ) - ilog2 b - 1)
        < pow2 ((ilog2 b : ℤ) + 1) * pow2 ((ilog2 a : ℤ) - ilog2 b - 1) :=
          mul_lt_mul_of_pos_right qb2 (pow2_pos _)
      _ = pow2 (ilog2 a : ℤ) := by
          rw [← pow2_add]
          congr 1
          ring
      _ ≤ (a : ℚ) := qa1
  have high : (a : ℚ) < (b : ℚ) * pow2 ((ilog2 a : ℤ) - ilog2 b + 1) := by
    calc (a : ℚ) < pow2 ((ilog2 a : ℤ) + 1) := qa2
      _ = pow2 (ilog2 b : ℤ) * pow2 ((ilog2 a : ℤ) - ilog2 b + 1) := by
          rw [← pow2_add]
          congr 1
          ring
      _ ≤ (b : ℚ) * pow2 ((ilog2 a : ℤ) - ilog2 b + 1) :=
          mul_le_mul_of_nonneg_right qb1 (le_of_lt (pow2_pos _))
  have hL1 : L < (ilog2 a : ℤ) - ilog2 b + 1 := by
    have hlt : (b : ℚ) * pow2 L < (b : ℚ) * pow2 ((ilog2 a : ℤ) - ilog2 b + 1) :=
      lt_of_le_of_lt h1 high
    exact lt_of_pow2_lt (lt_of_mul_lt_mul_left hlt hbq.le)
  have hL2 : (ilog2 a : ℤ) - ilog2 b - 1 < L + 1 := by
    have hlt : (b : ℚ) * pow2 ((ilog2 a : ℤ) - ilog2 b - 1) < (b : ℚ) * pow2 (L + 1) :=
      lt_of_lt_of_le low (le_of_lt h2)
    exact lt_of_pow2_lt (lt_of_mul_lt_mul_left hlt hbq.le)
  rw [flog2]
  by_cases hsplit : ltPow2 a b ((ilog2 a : ℤ) - (ilog2 b : ℤ)) = true
  · rw [if_pos hsplit]
    have hq := (ltPow2_iff a b _).mp hsplit
    have : L < (ilog2 a : ℤ) - ilog2 b :=
      lt_of_pow2_lt (lt_of_mul_lt_mul_left (lt_of_le_of_lt h1 hq) hbq.le)
    omega
  · rw [if_neg hsplit]
    have hq : ¬ ((a : ℚ) < (b : ℚ) * pow2 ((ilog2 a : ℤ) - ilog2 b)) := by
      intro hcon
      exact hsplit ((ltPow2_iff a b _).mpr hcon)
    push_neg at hq
    have : (ilog2 a : ℤ) - ilog2 b < L + 1 :=
      lt_of_pow2_lt (lt_of_mul_lt_mul_left (lt_of_le_of_lt hq h2) hbq.le)
    omega

theorem roundNat_exact (B m : ℕ) (hB : 0 < B) : roundNat (B * m) B = m := by
  rw [roundNat]
  have h1 : B * m % B = 0 := Nat.mul_mod_right B m
  have h2 : B * m / B = m := Nat.mul_div_cancel_left m hB
  rw [h1, h2, mul_zero, if_neg (by omega), if_pos (by omega)]

theorem finishRound_canon (s : Bool) {m : ℕ} {e : ℤ} (hc : Canon m e) :
    finishRound s e m = .num s m e := by
  have e23 : (2 : ℕ) ^ 23 = 8388608 := by norm_num
  have e24 : (2 : ℕ) ^ 24 = 16777216 := by norm_num
  rw [finishRound]
  rcases hc with ⟨h1, h2, h3, h4⟩ | ⟨h1, h2, h3⟩
  · rw [e23] at h1
    rw [e24] at h2
    rw [if_neg (by omega), if_neg (by rw [e24]; omega), if_neg (by omega)]
  · rw [e23] at h2
    rw [if_neg (by omega), if_neg (by rw [e24]; omega), if_neg (by omega)]

theorem canon_m_pos {m : ℕ} {e : ℤ} (hc : Canon m e) : 0 < m := by
  have e23 : (2 : ℕ) ^ 23 = 8388608 := by norm_num
  rcases hc with ⟨h1, _⟩ | ⟨h1, _⟩
  · rw [e23] at h1
    omega
  · exact h1

theorem canon_m_lt {m : ℕ} {e : ℤ} (hc : Canon m e) : m < 2 ^ 24 := by
  have h : (2 : ℕ) ^ 23 < 2 ^ 24 := by norm_num
  rcases hc with ⟨_, h2, _⟩ | ⟨_, h2, _⟩
  · exact h2
  · omega

theorem canon_e_bounds {m : ℕ} {e : ℤ} (hc : Canon m e) : -149 ≤ e ∧ e ≤ 104 := by
  rcases hc with ⟨_, _, h3, h4⟩ | ⟨_, _, h3⟩
  · exact ⟨h3, h4⟩
  · omega

theorem roundFrac_repr (s : Bool) {a b m : ℕ} {e : ℤ} (hc : Canon m e)
    (ha : 0 < a) (hb : 0 < b) (ha4 : a < 2 ^ 400) (hb4 : b < 2 ^ 400)
    (hval : (a : ℚ) = (b : ℚ) * ((m : ℚ) * pow2 e)) :
    roundFrac s a b = .num s m e := by
  have hm0 : 0 < m := canon_m_pos hc
  have hm4 : m < 2 ^ 400 := lt_of_lt_of_le (canon_m_lt hc) (by norm_num)
  obtain ⟨hm1, hm2⟩ := ilog2_bounds hm0 hm4
  have hL : flog2 a b = (ilog2 m : ℤ) + e := by
    apply flog2_unique ha hb ha4 hb4
    · rw [hval, pow2_add, pow2_natCast]
      have step : ((2 ^ ilog2 m : ℕ) : ℚ) * pow2 e ≤ (m : ℚ) * pow2 e := by
        apply mul_le_mul_of_nonneg_right _ (le_of_lt (pow2_pos e))
        exact_mod_cast hm1
      exact mul_le_mul_of_nonneg_left step (Nat.cast_nonneg b)
    · rw [hval]
      have hrw : (ilog2 m : ℤ) + e + 1 = ((ilog2 m + 1 : ℕ) : ℤ) + e := by
        push_cast
        ring
      rw [hrw, pow2_add, pow2_natCast]
      have step : (m : ℚ) * pow2 e < ((2 ^ (ilog2 m + 1) : ℕ) : ℚ) * pow2 e := by
        apply mul_lt_mul_of_pos_right _ (pow2_pos e)
        exact_mod_cast hm2
      have hbq : (0 : ℚ) < (b : ℚ) := by exact_mod_cast hb
      exact mul_lt_mul_of_pos_left step hbq
  have hE : max (flog2 a b - 23) (-149) = e := by
    rw [hL]
    rcases hc with ⟨h1, h2, h3, h4⟩ | ⟨h1, h2, h3⟩
    · have hi : ilog2 m = 23 := by
        have c1 : ilog2 m < 24 := by
          by_contra hcon
          push_neg at hcon
          have hp : (2 : ℕ) ^ 24 ≤ 2 ^ ilog2 m := Nat.pow_le_pow_right (by norm_num) hcon
          omega
        have c2 : 23 < ilog2 m + 1 := by
          by_contra hcon
          push_neg at hcon
          have hp : (2 : ℕ) ^ (ilog2 m + 1) ≤ 2 ^ 23 :=
            Nat.pow_le_pow_right (by norm_num) hcon
          omega
        omega
      rw [hi]
      omega
    · have hi : ilog2 m < 23 := by
        by_contra hcon
        push_neg at hcon
        have hp : (2 : ℕ) ^ 23 ≤ 2 ^ ilog2 m := Nat.pow_le_pow_right (by norm_num) hcon
        omega
      rw [h3]
      omega
  rw [roundFrac, hE]
  rcases le_or_lt 0 e with hep | hen
  · have hnat : a = b * 2 ^ e.toNat * m := by
      have hq : (a : ℚ) = ((b * 2 ^ e.toNat * m : ℕ) : ℚ) := by
        rw [hval, pow2_toNat hep]
        push_cast
        ring
      exact_mod_cast hq
    rw [numAt, denAt, if_pos hep, if_pos hep, hnat,
      roundNat_exact _ _ (by positivity)]
    exact finishRound_canon s hc
  · have hnat : a * 2 ^ (-e).toNat = b * m := by
      have hq : ((a * 2 ^ (-e).toNat : ℕ) : ℚ) = ((b * m : ℕ) : ℚ) := by
        push_cast
        rw [hval, ← pow2_toNatQ (by omega : (0:ℤ) ≤ -e)]
        calc (b : ℚ) * ((m : ℚ) * pow2 e) * pow2 (-e)
            = (b : ℚ) * (m : ℚ) * (pow2 e * pow2 (-e)) := by ring
          _ = (b : ℚ) * (m : ℚ) := by rw [pow2_mul_neg_self, mul_one]
      exact_mod_cast hq
    rw [numAt, denAt, if_neg (by omega), if_neg (by omega), hnat,
      roundNat_exact _ _ hb]
    exact finishRound_canon s hc

theorem roundInt_repr (s : Bool) {m : ℕ} {e : ℤ} (hc : Canon m e)
    {A : ℕ} {e₀ : ℤ} (hA : 0 < A) (hAb : A < 2 ^ 280) (he₀ : -149 ≤ e₀)
    (hval : (A : ℚ) * pow2 e₀ = (m : ℚ) * pow2 e) :
    roundInt s A e₀ = .num s m e := by
  rw [roundInt]
  rcases le_or_lt 0 e₀ with hp | hn
  · rw [if_pos hp]
    have key : ((A * 2 ^ e₀.toNat : ℕ) : ℚ) = (m : ℚ) * pow2 e := by
      push_cast
      rw [← hval, pow2_toNat hp]
      push_cast
      ring
    have hbound : A * 2 ^ e₀.toNat < 2 ^ 400 := by
      have hlt : ((A * 2 ^ e₀.toNat : ℕ) : ℚ) < ((2 ^ 400 : ℕ) : ℚ) := by
        rw [key]
        have hm24 : (m : ℚ) ≤ pow2 24 := by
          rw [show (24 : ℤ) = ((24 : ℕ) : ℤ) by norm_num, pow2_natCast]
          exact_mod_cast le_of_lt (canon_m_lt hc)
        have hee : pow2 e ≤ pow2 104 := pow2_le_pow2 (canon_e_bounds hc).2
        calc (m : ℚ) * pow2 e ≤ pow2 24 * pow2 104 := by
              apply mul_le_mul hm24 hee (le_of_lt (pow2_pos e)) (le_of_lt (pow2_pos 24))
          _ = pow2 128 := by rw [← pow2_add]; norm_num
          _ < pow2 400 := pow2_lt_pow2 (by norm_num)
          _ = ((2 ^ 400 : ℕ) : ℚ) := by
              rw [show (400 : ℤ) = ((400 : ℕ) : ℤ) by norm_num, pow2_natCast]
      exact_mod_cast hlt
    apply roundFrac_repr s hc (by positivity) one_pos hbound (by norm_num)
    rw [key, Nat.cast_one, one_mul]
  · rw [if_neg (by omega)]
    have hdb : 2 ^ (-e₀).toNat < 2 ^ 400 := by
      have hle : (-e₀).toNat ≤ 149 := by omega
      calc (2 : ℕ) ^ (-e₀).toNat ≤ 2 ^ 149 := Nat.pow_le_pow_right (by norm_num) hle
        _ < 2 ^ 400 := by norm_num
    apply roundFrac_repr s hc hA (by positivity)
      (lt_trans hAb (by norm_num)) hdb
    rw [← pow2_toNat (by omega : (0:ℤ) ≤ -e₀)]
    have hstep : (A : ℚ) = (A : ℚ) * pow2 e₀ * pow2 (-e₀) := by
      rw [mul_assoc, pow2_mul_neg_self, mul_one]
    rw [hstep, hval]
    ring

theorem roundInt_shift (s : Bool) {m : ℕ} {e : ℤ} (hc : Canon m e) (e₀ : ℤ)
    (h1 : -149 ≤ e₀) (h2 : e₀ ≤ e) :
    roundInt s (m * 2 ^ (e - e₀).toNat) e₀ = .num s m e := by
  have hm0 : 0 < m := canon_m_pos hc
  have hppos : 0 < 2 ^ (e - e₀).toNat := Nat.pos_pow_of_pos _ (by norm_num)
  apply roundInt_repr s hc (Nat.mul_pos hm0 hppos) ?bound h1 ?val
  case bound =>
    have hk : (e - e₀).toNat ≤ 253 := by
      have := (canon_e_bounds hc).2
      omega
    have s1 : m * 2 ^ (e - e₀).toNat < 2 ^ 24 * 2 ^ (e - e₀).toNat :=
      (Nat.mul_lt_mul_right hppos).mpr (canon_m_lt hc)
    have s2 : (2 : ℕ) ^ 24 * 2 ^ (e - e₀).toNat ≤ 2 ^ 24 * 2 ^ 253 :=
      Nat.mul_le_mul_left _ (Nat.pow_le_pow_right (by norm_num) hk)
    calc m * 2 ^ (e - e₀).toNat < 2 ^ 24 * 2 ^ 253 := lt_of_lt_of_le s1 s2
      _ < 2 ^ 280 := by norm_num
  case val =>
    push_cast
    rw [← pow2_toNatQ (by omega : (0 : ℤ) ≤ e - e₀), mul_assoc, ← pow2_add]
    congr 2
    ring

theorem add_pzero_eqZ {y : F32} (hy : wfF32 y = true) :
    eqZ y (F32.add (.zero false) y) = true := by
  cases y with
  | nan => rfl
  | inf s => cases s <;> rfl
  | zero s => cases s <;> rfl
  | num s m e =>
    have hc : Canon m e := wf_canon.mp hy
    have hm0 : 0 < m := canon_m_pos hc
    have hebd := canon_e_bounds hc
    have hadd : F32.add (.zero false) (.num s m e) = .num s m e := by
      simp only [F32.add, F32.mantZ, F32.expZ, F32.signB]
      simp only [zero_mul, zero_add]
      have hYpos : (0 : ℤ) < ((2 ^ (e - 0 ⊓ e).toNat : ℕ) : ℤ) := by
        exact_mod_cast Nat.pos_pow_of_pos _ (by norm_num : 0 < 2)
      have hmpos : (0 : ℤ) < (m : ℤ) := by exact_mod_cast hm0
      cases s with
      | false =>
        simp only [Bool.false_eq_true, if_false]
        have hpos : (0 : ℤ) < (m : ℤ) * ((2 ^ (e - 0 ⊓ e).toNat : ℕ) : ℤ) :=
          mul_pos hmpos hYpos
        rw [if_neg (by omega), decide_eq_false (by omega)]
        have habs : ((m : ℤ) * ((2 ^ (e - 0 ⊓ e).toNat : ℕ) : ℤ)).natAbs
            = m * 2 ^ (e - 0 ⊓ e).toNat := by
          rw [Int.natAbs_mul, Int.natAbs_ofNat, Int.natAbs_ofNat]
        rw [habs]
        exact roundInt_shift false hc (0 ⊓ e) (by omega) (by omega)
      | true =>
        simp only [if_true]
        have hpos : (0 : ℤ) < (m : ℤ) * ((2 ^ (e - 0 ⊓ e).toNat : ℕ) : ℤ) :=
          mul_pos hmpos hYpos
        have hneg : -(m : ℤ) * ((2 ^ (e - 0 ⊓ e).toNat : ℕ) : ℤ) < 0 := by
          rw [neg_mul]
          omega
        rw [if_neg (by omega), decide_eq_true (by omega)]
        have habs : (-(m : ℤ) * ((2 ^ (e - 0 ⊓ e).toNat : ℕ) : ℤ)).natAbs
            = m * 2 ^ (e - 0 ⊓ e).toNat := by
          rw [neg_mul, Int.natAbs_neg, Int.natAbs_mul, Int.natAbs_ofNat,
            Int.natAbs_ofNat]
        rw [habs]
        exact roundInt_shift true hc (0 ⊓ e) (by omega) (by omega)
    rw [hadd, eqZ_self]

/-! ## Helper lemmas about the engines -/

theorem evalM_addM (a b : MExpr) (bs : List EvalVar) :
    evalM (addM a b) bs = F32.add (evalM a bs) (evalM b bs) := by
  cases a <;> cases b <;> rfl

theorem evalM_mulM (a b : MExpr) (bs : List EvalVar) :
    evalM (mulM a b) bs = F32.mul (evalM a bs) (evalM b bs) := by
  cases a <;> cases b <;> rfl

theorem mulM_prod {f g : MExpr} (h : (isConstM f && isConstM g) = false) :
    mulM f g = .prodM f g := by
  cases f <;> cases g <;> first
    | rfl
    | (exfalso; simp [isConstM] at h)

/-- A composite node both of whose children are Constant leaves
(single-variable engine; the tagged Zero and One count as Constant kind). -/
def bothConstNodeS : SExpr → Bool
  | .sum l r => isConstKind l && isConstKind r
  | .diff l r => isConstKind l && isConstKind r
  | .prod l r => isConstKind l && isConstKind r
  | .quot l r => isConstKind l && isConstKind r
  | _ => false

/-- A composite node both of whose children are Constant leaves
(multi-variable engine). -/
def bothConstNodeM : MExpr → Bool
  | .sumM l r => isConstM l && isConstM r
  | .diffM l r => isConstM l && isConstM r
  | .prodM l r => isConstM l && isConstM r
  | .quotM l r => isConstM l && isConstM r
  | _ => false

/-! ## The claims -/

/-- C1: in the single-variable engine, building a Quotient whose right
operand is the literal-Constant Zero returns the literal-Constant Zero for
every left operand, not an IEEE infinity and not a Quotient node (the rule
marked `todo: fix this` in the source). -/
theorem claim1_div_zero (x : SExpr) : divE x .zeroE = .zeroE := by
  rw [divE, if_pos rfl]

/-- C2 counterexample: the value the claim asserts for `expr.dx(x)` at
`x = 10, y = 200`, namely 20 - 320000/225 (about -1402.22) computed in
single-precision arithmetic, is not what the engine computes: the engine
returns about -691.11, because 4*200*200 is 160000, not 320000. -/
theorem claim2_counterexample :
    ¬ (evalM (dxM exprMain varX.idTok) bindMain
        = F32.sub (f32 20) (F32.div (f32 320000) (f32 225))) := by
  decide

/-- C2 amended: with variables x and y, z a copy of x, and
`expr = x*z + 4*y*y/(x+5)`, `expr.dx(x)` at `x=10, y=200` equals
`2*10 + (0 - 4*200*200*1)/(10+5)^2 = 20 - 160000/225` (about -691.11), and
`expr.dx(y)` equals `8*200/(10+5)` (about 106.67), both bit-for-bit in
single-precision float arithmetic. -/
theorem claim2_amended :
    evalM (dxM exprMain varX.idTok) bindMain
      = F32.sub (F32.mul (f32 2) (f32 10))
          (F32.div
            (F32.mul (F32.mul (F32.mul (f32 4) (f32 200)) (f32 200)) f32one)
            (F32.mul (F32.add (f32 10) (f32 5)) (F32.add (f32 10) (f32 5))))
    ∧ evalM (dxM exprMain varY.idTok) bindMain
      = F32.div (F32.mul (f32 8) (f32 200)) (F32.add (f32 10) (f32 5)) := by
  constructor
  · decide
  · decide

/-- No subterm is a composite node with two Constant children
(single-variable engine). Every tree built through the builders satisfies
this; it is the invariant that bounds growth from constant arithmetic. -/
def noBothConstS : SExpr → Bool
  | .sum l r => !(isConstKind l && isConstKind r) && noBothConstS l && noBothConstS r
  | .diff l r => !(isConstKind l && isConstKind r) && noBothConstS l && noBothConstS r
  | .prod l r => !(isConstKind l && isConstKind r) && noBothConstS l && noBothConstS r
  | .quot l r => !(isConstKind l && isConstKind r) && noBothConstS l && noBothConstS r
  | _ => true

/-- No subterm is a composite node with two Constant children
(multi-variable engine). -/
def noBothConstM : MExpr → Bool
  | .sumM l r => !(isConstM l && isConstM r) && noBothConstM l && noBothConstM r
  | .diffM l r => !(isConstM l && isConstM r) && noBothConstM l && noBothConstM r
  | .prodM l r => !(isConstM l && isConstM r) && noBothConstM l && noBothConstM r
  | .quotM l r => !(isConstM l && isConstM r) && noBothConstM l && noBothConstM r
  | _ => true

/-- C3 counterexample: in the multi-variable engine the float overloads do
not fold: adding the plain float 5 to the Constant expression 3 yields a
Sum node whose two children are both Constant. -/
theorem claim3_counterexample :
    noBothConstM (addMF (.constM (f32 3)) (f32 5)) = false := by
  decide

/-- C3 amended: the Expression-Expression builders of both engines preserve
the invariant that no Sum/Difference/Product/Quotient node has both
children Constant, and whenever both operands are Constant the result is a
single folded Constant leaf; the single-variable float overloads preserve
the invariant as well, but the multi-variable float overloads build the
composite node directly and can violate it. -/
theorem claim3_amended :
    (∀ a b : SExpr, noBothConstS a = true → noBothConstS b = true →
      noBothConstS (addE a b) = true ∧ noBothConstS (subE a b) = true ∧
      noBothConstS (mulE a b) = true ∧ noBothConstS (divE a b) = true)
    ∧ (∀ a b : SExpr, isConstKind a = true → isConstKind b = true →
      isConstKind (addE a b) = true ∧ isConstKind (subE a b) = true ∧
      isConstKind (mulE a b) = true ∧ isConstKind (divE a b) = true)
    ∧ (∀ a b : MExpr, noBothConstM a = true → noBothConstM b = true →
      noBothConstM (addM a b) = true ∧ noBothConstM (subM a b) = true ∧
      noBothConstM (mulM a b) = true ∧ noBothConstM (divM a b) = true)
    ∧ (∀ a b : MExpr, isConstM a = true → isConstM b = true →
      isConstM (addM a b) = true ∧ isConstM (subM a b) = true ∧
      isConstM (mulM a b) = true ∧ isConstM (divM a b) = true)
    ∧ (∀ (a : SExpr) (c : F32), noBothConstS a = true →
      noBothConstS (addF a c) = true ∧ noBothConstS (addFl c a) = true ∧
      noBothConstS (subF a c) = true ∧ noBothConstS (subFl c a) = true ∧
      noBothConstS (mulF a c) = true ∧ noBothConstS (mulFl c a) = true ∧
      noBothConstS (divF a c) = true ∧ noBothConstS (divFl c a) = true) := by
  have hpre : ∀ a b : SExpr, noBothConstS a = true → noBothConstS b = true →
      noBothConstS (addE a b) = true ∧ noBothConstS (subE a b) = true ∧
      noBothConstS (mulE a b) = true ∧ noBothConstS (divE a b) = true := by
    intro a b ha hb
    refine ⟨?_, ?_, ?_, ?_⟩
    · rw [addE]
      split_ifs with h1 h2 h3 <;> simp_all [noBothConstS] <;>
        cases hA : isConstKind a <;> simp_all
    · rw [subE]
      split_ifs with h1 h2 <;> simp_all [noBothConstS] <;>
        cases hA : isConstKind a <;> simp_all
    · rw [mulE]
      split_ifs with h1 h2 h3 h4 <;> simp_all [noBothConstS] <;>
        cases hA : isConstKind a <;> simp_all
    · rw [divE]
      split_ifs with h1 h2 h3 h4 <;> simp_all [noBothConstS] <;>
        cases hA : isConstKind a <;> simp_all
  refine ⟨hpre, ?_, ?_, ?_, ?_⟩
  · intro a b h1 h2
    refine ⟨?_, ?_, ?_, ?_⟩
    · rw [addE]
      split_ifs <;> simp_all [isConstKind]
    · rw [subE]
      split_ifs <;> simp_all [isConstKind]
    · rw [mulE]
      split_ifs <;> simp_all [isConstKind]
    · rw [divE]
      split_ifs <;> simp_all [isConstKind]
  · intro a b ha hb
    cases a <;> cases b <;> simp_all [addM, subM, mulM, divM, noBothConstM, isConstM]
  · intro a b h1 h2
    cases a <;> cases b <;> simp_all [addM, subM, mulM, divM, isConstM]
  · intro a c ha
    have hc : noBothConstS (.constE c) = true := rfl
    have hcn : noBothConstS (.constE (F32.neg c)) = true := rfl
    exact ⟨(hpre a _ ha hc).1, (hpre _ a hc ha).1, (hpre a _ ha hcn).1,
      (hpre _ a hc ha).2.1, (hpre a _ ha hc).2.2.1, (hpre _ a hc ha).2.2.1,
      (hpre a _ ha hc).2.2.2, (hpre _ a hc ha).2.2.2⟩

/-- C3 witness: the preserved invariant and the folding rule, instantiated
at concrete inputs. -/
theorem claim3_witness :
    (noBothConstS SExpr.varE = true ∧ noBothConstS (SExpr.constE (f32 3)) = true ∧
      noBothConstS (addE .varE (.constE (f32 3))) = true) ∧
    (isConstKind (SExpr.constE (f32 2)) = true ∧
      isConstKind (addE (.constE (f32 2)) (.constE (f32 3))) = true) :=
  ⟨⟨by decide, by decide,
      (claim3_amended.1 .varE (.constE (f32 3)) (by decide) (by decide)).1⟩,
    ⟨by decide,
      (claim3_amended.2.1 (.constE (f32 2)) (.constE (f32 3)) (by decide)
        (by decide)).1⟩⟩

/-- C4 counterexample: in the single-variable engine the float overload
`expr - float` does not build the same Expression as promoting the float to
a Constant and applying the Difference builder: it builds
`expr + Constant(-c)`, a Sum node, instead of a Difference node. -/
theorem claim4_counterexample :
    ¬ (subF .varE f32one = subE .varE (.constE f32one)) := by
  decide

/-- C4 amended: in the single-variable engine every float overload except
`expr - float` builds exactly the promoted-Constant build; `expr - float`
builds `expr + Constant(-c)` and agrees with the promoted build in
evaluation at every input up to the sign of a floating-point zero. In the
multi-variable engine the float overloads build the composite node directly,
which evaluates bit-for-bit like the promoted build at every binding. -/
theorem claim4_amended :
    (∀ (e : SExpr) (c : F32),
      addF e c = addE e (.constE c) ∧ addFl c e = addE (.constE c) e ∧
      mulF e c = mulE e (.constE c) ∧ mulFl c e = mulE (.constE c) e ∧
      divF e c = divE e (.constE c) ∧ divFl c e = divE (.constE c) e ∧
      subFl c e = subE (.constE c) e ∧ subF e c = addE e (.constE (F32.neg c)))
    ∧ (∀ (e : SExpr) (c x : F32), wfF32 c = true →
      eqZ (evalS (subF e c) x) (evalS (subE e (.constE c)) x) = true)
    ∧ (∀ (e : MExpr) (c : F32) (bs : List EvalVar),
      evalM (addMF e c) bs = evalM (addM e (.constM c)) bs ∧
      evalM (addMFl c e) bs = evalM (addM (.constM c) e) bs ∧
      evalM (subMF e c) bs = evalM (subM e (.constM c)) bs ∧
      evalM (subMFl c e) bs = evalM (subM (.constM c) e) bs ∧
      evalM (mulMF e c) bs = evalM (mulM e (.constM c)) bs ∧
      evalM (mulMFl c e) bs = evalM (mulM (.constM c) e) bs ∧
      evalM (divMF e c) bs = evalM (divM e (.constM c)) bs ∧
      evalM (divMFl c e) bs = evalM (divM (.constM c) e) bs) := by
  refine ⟨fun e c => ⟨rfl, rfl, rfl, rfl, rfl, rfl, rfl, rfl⟩, ?_, ?_⟩
  · intro e c x hc
    cases e with
    | zeroE =>
      have hred : evalS (subF .zeroE c) x = F32.neg c := by
        simp [subF, addE, evalS]
      have hred2 : evalS (subE .zeroE (.constE c)) x
          = F32.add (.zero false) (F32.neg c) := by
        simp [subE, addE, isConstKind, cval, evalS, F32.sub]
      rw [hred, hred2]
      exact add_pzero_eqZ (by rw [wf_neg]; exact hc)
    | oneE => simp [subF, subE, addE, isConstKind, cval, evalS, F32.sub, eqZ_self]
    | constE v => simp [subF, subE, addE, isConstKind, cval, evalS, F32.sub, eqZ_self]
    | varE => simp [subF, subE, addE, isConstKind, cval, evalS, F32.sub, eqZ_self]
    | sum l r => simp [subF, subE, addE, isConstKind, cval, evalS, F32.sub, eqZ_self]
    | diff l r => simp [subF, subE, addE, isConstKind, cval, evalS, F32.sub, eqZ_self]
    | prod l r => simp [subF, subE, addE, isConstKind, cval, evalS, F32.sub, eqZ_self]
    | quot l r => simp [subF, subE, addE, isConstKind, cval, evalS, F32.sub, eqZ_self]
  · intro e c bs
    refine ⟨?_, ?_, ?_, ?_, ?_, ?_, ?_, ?_⟩ <;> cases e <;> rfl

/-- C4 witness: the evaluation agreement of `expr - float` with the
promoted build, instantiated at the literal Zero expression and the
constant 1. -/
theorem claim4_witness :
    wfF32 f32one = true ∧
    eqZ (evalS (subF .zeroE f32one) (F32.zero false))
      (evalS (subE .zeroE (.constE f32one)) (F32.zero false)) = true :=
  ⟨by decide, claim4_amended.2.1 .zeroE f32one (F32.zero false) (by decide)⟩

/-- C5: the identity eliminations of the single-variable engine hold by
structural identity for every expression x: x+0, 0+x and x-0 return x,
x*1 and 1*x return x, x*0 and 0*x return the literal Zero, x/1 returns x
and 0/x returns the literal Zero. -/
theorem claim5_identities (x : SExpr) :
    addE x .zeroE = x ∧ addE .zeroE x = x ∧ subE x .zeroE = x ∧
    mulE x .oneE = x ∧ mulE .oneE x = x ∧
    mulE x .zeroE = .zeroE ∧ mulE .zeroE x = .zeroE ∧
    divE x .oneE = x ∧ divE .zeroE x = .zeroE := by
  refine ⟨?_, ?_, ?_, ?_, ?_, ?_, ?_, ?_, ?_⟩ <;>
    cases x <;> simp [addE, subE, mulE, divE, isConstKind, cval]

/-- C6 counterexample: the product rule does not hold bit-for-bit when both
factors are Constant: for f = 2 and g = 1/0 (the folded Constant infinity),
(f*g).dx evaluates to +0 while the textbook right-hand side evaluates to
NaN because it multiplies the derivative 0 with the infinite g. -/
theorem claim6_counterexample :
    ¬ (evalM (dxM (mulM (.constM (f32 2)) (divM (.constM (f32 1)) (.constM (f32 0)))) 0) []
        = F32.add
            (F32.mul (evalM (dxM (.constM (f32 2)) 0) [])
              (evalM (divM (.constM (f32 1)) (.constM (f32 0))) []))
            (F32.mul (evalM (.constM (f32 2)) [])
              (evalM (dxM (divM (.constM (f32 1)) (.constM (f32 0))) 0) []))) := by
  decide

/-- C6 amended: in the multi-variable engine, for every pair of expressions
f and g that are not both Constant leaves, every variable and every binding,
evaluating (f*g).dx(v) yields exactly the float
f.dx(v)(b)*g(b) + f(b)*g.dx(v)(b). -/
theorem claim6_amended (f g : MExpr) (v : ℕ) (bs : List EvalVar)
    (h : (isConstM f && isConstM g) = false) :
    evalM (dxM (mulM f g) v) bs
      = F32.add (F32.mul (evalM (dxM f v) bs) (evalM g bs))
          (F32.mul (evalM f bs) (evalM (dxM g v) bs)) := by
  rw [mulM_prod h]
  simp only [dxM]
  rw [evalM_addM, evalM_mulM, evalM_mulM]

/-- C6 witness: the product rule at the concrete pair (x, x), variable
token 0 and the empty binding list. -/
theorem claim6_witness :
    (isConstM (MExpr.mvar 0) && isConstM (MExpr.mvar 0)) = false ∧
    evalM (dxM (mulM (.mvar 0) (.mvar 0)) 0) []
      = F32.add (F32.mul (evalM (dxM (.mvar 0) 0) []) (evalM (.mvar 0) []))
          (F32.mul (evalM (.mvar 0) []) (evalM (dxM (.mvar 0) 0) [])) :=
  ⟨by decide, claim6_amended (.mvar 0) (.mvar 0) 0 [] (by decide)⟩

/-- C7: evaluating a Variable leaf of the multi-variable engine against an
ordered binding list returns the value of the first binding whose identity
matches the leaf, and 0 when no binding matches; no error is signaled
(evaluation is a total function). -/
theorem claim7_lookup (i : ℕ) (bs : List EvalVar) :
    evalM (.mvar i) bs
      = ((bs.find? fun ev => ev.id == i).map EvalVar.val).getD (.zero false) := by
  show lookupVar i bs = _
  induction bs with
  | nil => rfl
  | cons ev rest ih =>
    rw [lookupVar]
    by_cases h : ev.id = i
    · simp [List.find?_cons, h]
    · simp only [List.find?_cons]
      have hb : (ev.id == i) = false := by
        simp [h]
      rw [if_neg h, hb, ih]

/-- C8: differentiating a Variable of the multi-variable engine with
respect to a Variable with the same identity token (such as a copy) yields
the Constant 1, and with respect to a Variable with a distinct token yields
the Constant 0; the comparison is by identity token, never by structural
equality of the nodes. -/
theorem claim8_dx_variable :
    (∀ i : ℕ, dxM (.mvar i) i = .constM f32one) ∧
    (∀ i j : ℕ, i ≠ j → dxM (.mvar i) j = .constM (.zero false)) := by
  constructor
  · intro i
    simp [dxM]
  · intro i j h
    simp [dxM, h]

/-- C8 witness: two Variables with distinct identity tokens differentiate
to the Constant 0. -/
theorem claim8_witness :
    (0 : ℕ) ≠ 1 ∧ dxM (.mvar 0) 1 = .constM (.zero false) :=
  ⟨by decide, claim8_dx_variable.2 0 1 (by decide)⟩

/-- C9: in both engines, combining two general Constants with any of the
four operators folds to a single Constant leaf holding the float result,
and division by a zero-valued general Constant is not guarded: the folded
value is an IEEE-754 infinity or NaN. -/
theorem claim9_constant_folding :
    (∀ a b : F32,
      addE (.constE a) (.constE b) = .constE (F32.add a b) ∧
      subE (.constE a) (.constE b) = .constE (F32.sub a b) ∧
      mulE (.constE a) (.constE b) = .constE (F32.mul a b) ∧
      divE (.constE a) (.constE b) = .constE (F32.div a b) ∧
      addM (.constM a) (.constM b) = .constM (F32.add a b) ∧
      subM (.constM a) (.constM b) = .constM (F32.sub a b) ∧
      mulM (.constM a) (.constM b) = .constM (F32.mul a b) ∧
      divM (.constM a) (.constM b) = .constM (F32.div a b)) ∧
    (∀ (a : F32) (s : Bool), (F32.div a (F32.zero s)).isInfOrNan = true) := by
  constructor
  · intro a b
    refine ⟨?_, ?_, ?_, ?_, rfl, rfl, rfl, rfl⟩ <;>
      simp [addE, subE, mulE, divE, isConstKind, cval]
  · intro a s
    cases a <;> simp [F32.div, F32.isInfOrNan, F32.mantZ, F32.signB] <;>
      split_ifs <;> simp [F32.isInfOrNan]

/-- C10: the binding operation `variable = value` of the multi-variable
engine is non-mutating: it returns a fresh EvalVariable pairing the
identity token of the Variable with the value, leaves the Variable (and its
identity token) unchanged, and the Variable can be rebound with any other
value and still matches expressions built from its token. -/
theorem claim10_assignment (v : MVariable) (c : F32) :
    (assignVar v c).1 = EvalVar.mk v.idTok c ∧
    (assignVar v c).2 = v ∧
    (∀ c2 : F32, evalM (.mvar v.idTok) [(assignVar v c2).1] = c2) := by
  refine ⟨rfl, rfl, ?_⟩
  intro c2
  show lookupVar v.idTok [⟨v.idTok, c2⟩] = c2
  simp [lookupVar]
